import Mathlib

set_option autoImplicit false

namespace Lager

/-!
Verification of the lager/myrmex endpoint and API specification pipeline.

The development embeds the JavaScript sources shallowly:

* specification fragments (the `spec.json` documents) become the `Json`
  inductive type;
* the lodash `_.merge` deep merge used by `mergeSpecsFiles` becomes the
  `mergeJson` family of functions;
* promise chains become explicit `Except`/`PromiseResult` values, with the
  provider (AWS SDK) calls abstracted as input data;
* hook implementations of the plugin bus become pure argument-list
  transformers.
-/

/-- JSON-compatible document values, as produced by `require`-ing a
`spec.json` file: null, booleans, numbers, strings, ordered sequences and
mappings with unique keys. Mappings are represented as ordered association
lists, matching JavaScript object key ordering. -/
inductive Json where
  | null : Json
  | bool : Bool → Json
  | num : Int → Json
  | str : String → Json
  | arr : List Json → Json
  | obj : List (String × Json) → Json
  deriving Repr

/-- Look a key up in the field list of a JavaScript object
(`d[k]`, `undefined` becoming `none`). Returns the first binding. -/
def lookupField (k : String) : List (String × Json) → Option Json
  | [] => none
  | (k', v) :: d => if k' = k then some v else lookupField k d

/-- Assignment `d[k] = v` on a JavaScript object represented as an ordered
field list: an existing key keeps its position and receives the new value,
a new key is appended at the end, matching JavaScript property ordering. -/
def storeField (k : String) (v : Json) : List (String × Json) → List (String × Json)
  | [] => [(k, v)]
  | (k', v') :: d => if k' = k then (k', v) :: d else (k', v') :: storeField k v d

mutual

/-- Model of lodash `_.merge(d, s)` as used by `mergeSpecsFiles` on
specification fragments: mappings are merged key by key recursively, arrays
are merged index by index recursively (source elements override destination
elements at the same index, extra elements of either side are kept), and in
every other combination the source value replaces the destination value. -/
def mergeJson : Json → Json → Json
  | Json.obj d, Json.obj s => Json.obj (mergeFields d s)
  | Json.arr ds, Json.arr ss => Json.arr (mergeArrays ds ss)
  | _, s => s

/-- Index-wise merge of two JavaScript arrays, as lodash `_.merge` performs
on array properties. -/
def mergeArrays : List Json → List Json → List Json
  | ds, [] => ds
  | [], ss => ss
  | d :: ds, s :: ss => mergeJson d s :: mergeArrays ds ss

/-- Key-wise merge of two JavaScript objects: lodash iterates the source
keys in order and assigns to the destination the merge of the current
destination value (when the key exists) with the source value. -/
def mergeFields : List (String × Json) → List (String × Json) → List (String × Json)
  | d, [] => d
  | d, (k, v) :: s =>
    let newVal := match lookupField k d with
      | some old => mergeJson old v
      | none => v
    mergeFields (storeField k newVal d) s

end

/-- JavaScript error value as observed by the catch handlers of the
pipeline: the `code` property (empty string when the error carries no code,
as for a SyntaxError raised on malformed JSON), the `path` property set by
filesystem errors, and the `cause.message` chain used by the AWS SDK
(`none` when there is no cause or its message is absent, `some ""` when the
message is the empty string, which is falsy in JavaScript). -/
structure JsError where
  code : String
  path : String
  causeMessage : Option String
  deriving Repr, DecidableEq

/-- Helper of `jsSplit`: split a character list on a separator character;
splitting the empty list yields one empty group, as JavaScript
`''.split(sep)` yields `['']`. -/
def splitChars (sep : Char) : List Char → List (List Char)
  | [] => [[]]
  | c :: cs =>
    match splitChars sep cs with
    | [] => [[]]
    | g :: gs => if c = sep then [] :: g :: gs else (c :: g) :: gs

/-- Model of JavaScript `String.prototype.split` with a one-character
separator (the path separator or `/` in the sources). -/
def jsSplit (sep : Char) (s : String) : List String :=
  (splitChars sep s.data).map (fun cs => String.mk cs)

/-- Model of JavaScript `String.prototype.toUpperCase` on one character,
restricted to the ASCII range: the strings uppercased by the sources are
HTTP method names. -/
def jsToUpperChar (c : Char) : Char :=
  if 'a' ≤ c ∧ c ≤ 'z' then Char.ofNat (c.toNat - 32) else c

/-- Model of JavaScript `String.prototype.toUpperCase`. -/
def jsToUpper (s : String) : String :=
  String.mk (s.data.map jsToUpperChar)

/-- Model of Node `path.basename`: the last slash-delimited segment. -/
def basename (p : String) : String :=
  (jsSplit '/' p).getLastD ""

/-- Outcome of `require(dir + path.sep + 'spec')` for one directory level:
the fragment it exports, a MODULE_NOT_FOUND error because no spec file
exists there, or any other load failure (malformed content, permission
error), whose error code is not MODULE_NOT_FOUND. -/
inductive SpecLoad where
  | found : Json → SpecLoad
  | absent : SpecLoad
  | failure : JsError → SpecLoad

/-- The filesystem seen by the specification merger: each directory,
identified by its list of path segments, answers a spec load outcome. -/
def SpecFS : Type := List String → SpecLoad

/-- Model of `path.join(dir, seg)` restricted to the segments occurring in
the walk: an empty segment leaves the path unchanged, as `path.join` drops
empty components (the sub-paths of `loadEndpoints` start with the path
separator, so their first split segment is empty). -/
def joinSegment (dir : List String) (seg : String) : List String :=
  if seg = "" then dir else dir ++ [seg]

/-- Directories visited by the do/while walk of `mergeSpecsFiles`: the
begin path extended segment by segment along the sub-path. -/
def specDirsOnPath (beginPath : List String) : List String → List (List String)
  | [] => []
  | d :: rest =>
    let dir := joinSegment beginPath d
    dir :: specDirsOnPath dir rest

/-- Loop of `mergeSpecsFiles`: at each level, try to load the spec
fragment; a MODULE_NOT_FOUND error is silently ignored (the level
contributes the empty document `{}`), any other load error is thrown;
the fragment found is merged into the accumulator with lodash `_.merge`. -/
def mergeSpecsFilesGo (fs : SpecFS) : List String → List String → Json → Except JsError Json
  | _, [], spec => Except.ok spec
  | searchSpecDir, subDir :: rest, spec =>
    let dir := joinSegment searchSpecDir subDir
    match fs dir with
    | SpecLoad.found subSpec => mergeSpecsFilesGo fs dir rest (mergeJson spec subSpec)
    | SpecLoad.absent => mergeSpecsFilesGo fs dir rest (mergeJson spec (Json.obj []))
    | SpecLoad.failure e => Except.error e

/-- Model of `mergeSpecsFiles(beginPath, subPath)`: aggregates the
specifications found in the spec files along `subPath`, starting from the
empty document. `subPath` is given as its list of path-separator-delimited
segments. -/
def mergeSpecsFiles (fs : SpecFS) (beginPath : List String) (subPath : List String) : Except JsError Json :=
  mergeSpecsFilesGo fs beginPath subPath (Json.obj [])

/-- Value of the spec fragment a directory level contributes to the merge:
the fragment found, or the empty document when the spec file is absent. -/
def fragmentOrEmpty : SpecLoad → Json
  | SpecLoad.found f => f
  | _ => Json.obj []

/-- A spec load outcome that does not throw (found or absent). -/
def SpecLoad.ok : SpecLoad → Prop
  | SpecLoad.found _ => True
  | SpecLoad.absent => True
  | SpecLoad.failure _ => False

/-!
Hook/event bus (`Lager.prototype.fire` in `src/lib/lager.js`).

A hook implementation receives the event's argument list and resolves with
the (possibly transformed) argument list, which `fire` threads to the next
plugin through `.spread`. Implementations are modelled as pure argument
list transformers; a plugin whose `hooks` object lacks the event name (or
that has no `hooks` object at all) answers `none`.
-/

/-- A registered plugin: its name and its duck-typed `hooks` lookup. -/
structure Plugin (α : Type) where
  name : String
  hooks : String → Option (List α → List α)

/-- Recursive helper of `fire`: if the plugin at the head implements the
hook, execute it and pass the transformed arguments to the remaining
plugins; otherwise move to the next plugin with the same arguments. -/
def callPluginsSequencialy {α : Type} (eventName : String) : List (Plugin α) → List α → List α
  | [], args => args
  | p :: rest, args =>
    match p.hooks eventName with
    | some h => callPluginsSequencialy eventName rest (h args)
    | none => callPluginsSequencialy eventName rest args

/-- Model of `lager.fire(eventName, ...args)`: invoke, in registration
order, each plugin's implementation of the hook, threading the argument
list from one plugin to the next; the final argument list is the result. -/
def fire {α : Type} (plugins : List (Plugin α)) (eventName : String) (args : List α) : List α :=
  callPluginsSequencialy eventName plugins args

/-!
Endpoint loading (`loadEndpoints` / `loadEndpoint` of the api-gateway
plugin) and API loading (`loadApis`).
-/

/-- Settled state of a bluebird promise as observed by the caller. -/
inductive PromiseResult (α : Type) where
  | resolved : α → PromiseResult α
  | rejected : JsError → PromiseResult α
  deriving Repr

/-- One loaded Endpoint: its merged specification, its resource path (url
style) and its HTTP method. -/
structure Endpoint where
  spec : Json
  resourcePath : String
  method : String
  deriving Repr

/-- HTTP method directory names recognized by the directory walk of
`loadEndpoints` (the literal list in the source). -/
def recognizedMethods : List String := ["GET", "POST", "PUT", "PATCH", "DELETE"]

/-- Per-directory selection of the walk in `loadEndpoints`: the visited
directory path relative to the endpoints root is split on the path
separator, its last segment is popped as the candidate method, and the
directory is kept as an endpoint leaf only when that segment is one of the
recognized methods; the remaining segments joined with `/` form the
resource path. -/
def endpointLeaf (subPathParts : List String) : Option (String × String) :=
  let method := subPathParts.getLastD ""
  let resourcePathParts := subPathParts.dropLast
  if recognizedMethods.contains method then
    some (String.intercalate "/" resourcePathParts, method)
  else
    none

/-- Model of `loadEndpoint(endpointSpecRootPath, resourcePath, method)`:
the method is uppercased, the spec is aggregated by `mergeSpecsFiles` over
`resourcePath` splitted on `/` with the method appended, and an Endpoint
is constructed from the result. -/
def loadEndpoint (fs : SpecFS) (endpointSpecRootPath : List String) (resourcePath : String) (method : String) : Except JsError Endpoint :=
  let m := jsToUpper method
  let subPath := jsSplit '/' resourcePath ++ [m]
  (mergeSpecsFiles fs endpointSpecRootPath subPath).map (fun spec => Endpoint.mk spec resourcePath m)

/-- Sequential settlement of a list of promises built from a list of
inputs, as `Promise.all` over the synchronously-produced promise array:
all succeed and the values are collected in order, or the first error
rejects the whole batch. -/
def exceptList {α β : Type} (f : α → Except JsError β) : List α → Except JsError (List β)
  | [] => Except.ok []
  | a :: rest => (f a).bind (fun b => (exceptList f rest).map (fun bs => b :: bs))

/-- Body of `loadEndpoints` before its catch handler: walk the directory
tree (the walk outcome is an input: the list of visited directories as
sub-paths split on the path separator, or the error thrown when the
endpoints root does not exist), keep the endpoint leaves, and load each of
them; the first load error rejects the whole batch. -/
def loadEndpointsBody (fs : SpecFS) (root : List String) (walk : Except JsError (List (List String))) : Except JsError (List Endpoint) :=
  walk.bind (fun dirs =>
    exceptList (fun pm => loadEndpoint fs root pm.1 pm.2) (dirs.filterMap endpointLeaf))

/-- Catch handler of `loadEndpoints`. When the error is the ENOENT of the
missing endpoints root directory it resolves with the empty list. For any
other error the source evaluates `Promise.reject(e)` WITHOUT returning it,
so the handler returns `undefined` and the chain resolves with `undefined`
(modelled as `none`) instead of rejecting. -/
def loadEndpointsCatch (e : JsError) : PromiseResult (Option (List Endpoint)) :=
  if e.code = "ENOENT" ∧ basename e.path = "endpoints" then
    PromiseResult.resolved (some [])
  else
    PromiseResult.resolved none

/-- Model of `loadEndpoints()`: its body guarded by its catch handler. A
resolved value is `some endpoints`, or `none` for `undefined`. -/
def loadEndpoints (fs : SpecFS) (root : List String) (walk : Except JsError (List (List String))) : PromiseResult (Option (List Endpoint)) :=
  match loadEndpointsBody fs root walk with
  | Except.ok endpoints => PromiseResult.resolved (some endpoints)
  | Except.error e => loadEndpointsCatch e

/-- One loaded Api (only the data the claims need: its specification). -/
structure Api where
  spec : Json
  deriving Repr

/-- Model of `loadApis()`: read the sub-directories of the apis root
(`readdir` outcome given as input) and load one Api per sub-directory (the
per-directory `require`-based loader is given as input); the catch handler
converts the ENOENT of the missing apis root into the empty list and
returns `Promise.reject(e)` for every other error. -/
def loadApis (readdir : Except JsError (List String)) (loadOne : String → Except JsError Api) : PromiseResult (List Api) :=
  match readdir.bind (fun subdirs => exceptList loadOne subdirs) with
  | Except.ok apis => PromiseResult.resolved apis
  | Except.error e =>
    if e.code = "ENOENT" ∧ basename e.path = "apis" then
      PromiseResult.resolved []
    else
      PromiseResult.rejected e

/-!
Lambda deployment (`Lambda.prototype.deploy` and
`Lambda.prototype.isDeployed` in `packages/lambda/src/lambda.js`).

The AWS SDK answers are inputs: the outcome of `getFunction` for the
existence check, and the outcomes of the update and create calls.
-/

/-- Answers of the AWS Lambda client for one deploy call. -/
structure AwsLambdaClient where
  getFunction : Except JsError Unit
  updateResult : Except JsError Unit
  createResult : Except JsError Unit

/-- Remote call performed by the create-vs-update branch of `deploy`. -/
inductive DeployAction where
  | update : DeployAction
  | creation : DeployAction
  deriving Repr, DecidableEq

/-- Model of `Lambda.prototype.isDeployed`: resolve `true` when
`getFunction` succeeds; when it fails, a ResourceNotFoundException resolves
`false` and any other error is rethrown. -/
def isDeployed (c : AwsLambdaClient) : Except JsError Bool :=
  match c.getFunction with
  | Except.ok _ => Except.ok true
  | Except.error e =>
    if e.code ≠ "ResourceNotFoundException" then Except.error e
    else Except.ok false

/-- Model of `Lambda.prototype.deploy` up to the create-vs-update branch:
when the existence check answers true, record operation `Update` in the
report and perform the update; otherwise record operation `Creation` and
perform the creation. The result pairs the action performed with the
`operation` field of the report (the publish/alias step that follows does
not touch either). -/
def lambdaDeploy (c : AwsLambdaClient) : Except JsError (DeployAction × String) :=
  (isDeployed c).bind (fun isDep =>
    if isDep then
      c.updateResult.map (fun _ => (DeployAction.update, "Update"))
    else
      c.createResult.map (fun _ => (DeployAction.creation, "Creation")))

/-!
Batch deployment of APIs (`executeCommand` of
`src/plugins/api-gateway/cli/deploy-apis.js`, final step).
-/

/-- Per-API deploy result as consumed by the final step of the deploy-apis
command: the API identifier and the truthiness of `result.report.failed`. -/
structure ApiDeployResult where
  apiId : String
  failed : Bool
  deriving Repr, DecidableEq

/-- Outcome of the final step of the deploy-apis command: either `publish`
is invoked for the listed APIs, or the process exits with code 1 and no
API is published. -/
inductive BatchOutcome where
  | published : List String → BatchOutcome
  | exitProcess : Nat → BatchOutcome
  deriving Repr, DecidableEq

/-- Model of the final `.spread((apis, results) => ...)` step of the
deploy-apis command: a `success` flag starts true and is cleared by every
result whose report is marked failed; when it survives, every API of the
batch is published; otherwise the publication step is skipped and the
process exits with code 1. -/
def deployApisFinalStep (apiIds : List String) (results : List ApiDeployResult) : BatchOutcome :=
  let success := results.foldl (fun s r => if r.failed then false else s) true
  if success then
    BatchOutcome.published apiIds
  else
    BatchOutcome.exitProcess 1

/-!
Error handling of the deploy-lambdas command (`executeCommand` of
`packages/lambda/src/cli/deploy-lambdas.js`, catch handler).
-/

/-- Outcome of the catch handler of the deploy-lambdas command: either the
handler prints the human-readable insufficient-permissions explanation and
exits the process with code 1, or the error is rethrown unchanged. -/
inductive LambdaCliCatchOutcome where
  | insufficientPermissionsExit : Nat → LambdaCliCatchOutcome
  | rethrown : JsError → LambdaCliCatchOutcome
  deriving Repr, DecidableEq

/-- Truthiness of `e.cause && e.cause.message` for a JavaScript error:
there is a cause whose message is a non-empty string. -/
def hasCauseMessage (e : JsError) : Bool :=
  match e.causeMessage with
  | some m => m ≠ ""
  | none => false

/-- Model of the catch handler of the deploy-lambdas command: an error
with code AccessDeniedException carrying a cause message is translated
into the printed insufficient-permissions explanation followed by
`process.exit(1)`; every other error is rethrown unchanged. -/
def deployLambdasCatch (e : JsError) : LambdaCliCatchOutcome :=
  if e.code = "AccessDeniedException" ∧ hasCauseMessage e then
    LambdaCliCatchOutcome.insufficientPermissionsExit 1
  else
    LambdaCliCatchOutcome.rethrown e

/-!
CORS hook (`packages/cors/src/hooks/after-add-endpoints-to-api.js`).

The hook walks the distinct resource paths of the API's endpoints and, for
each path that passes its existing-OPTIONS check, synthesizes an OPTIONS
preflight endpoint and attaches it with `api.addEndpoint(corsEndpoint,
true)`. The check is `_.find(endpoints, e => e.getMethod === 'OPTIONS' &&
e.getResourcePath() === resourcePath)`: `e.getMethod` is the uninvoked
method member, so the strict equality compares a function value with a
string.
-/

/-- JavaScript values subject to strict equality in the hook's predicate:
a string, or a function reference (identified by its name, all endpoints
sharing the same prototype method). -/
inductive JsVal where
  | strv : String → JsVal
  | funref : String → JsVal
  deriving Repr, DecidableEq

/-- JavaScript strict equality `===` on these values: equal strings are
equal, the same function reference is equal to itself, and a function is
never equal to a string. -/
def jsStrictEq : JsVal → JsVal → Bool
  | JsVal.strv a, JsVal.strv b => a = b
  | JsVal.funref a, JsVal.funref b => a = b
  | _, _ => false

/-- Helper of `jsUniq`: keep the elements not seen before, remembering the
elements already emitted. -/
def jsUniqGo (seen : List String) : List String → List String
  | [] => []
  | x :: xs =>
    if seen.contains x then jsUniqGo seen xs
    else x :: jsUniqGo (x :: seen) xs

/-- Model of lodash `_.uniq`: keep the first occurrence of each element,
preserving order. -/
def jsUniq (l : List String) : List String :=
  jsUniqGo [] l

/-- The existing-OPTIONS check of the CORS hook for one resource path, as
written in the source: some endpoint satisfies
`e.getMethod === 'OPTIONS' && e.getResourcePath() === resourcePath`,
where `e.getMethod` denotes the method member itself (the call parentheses
are missing in the source). -/
def corsHasOptionsCheck (endpoints : List Endpoint) (resourcePath : String) : Bool :=
  endpoints.any (fun e =>
    jsStrictEq (JsVal.funref "getMethod") (JsVal.strv "OPTIONS")
      && e.resourcePath = resourcePath)

/-- Resource paths for which the CORS hook synthesizes an OPTIONS
preflight endpoint: the distinct resource paths of the API's endpoints
whose existing-OPTIONS check found nothing. -/
def corsSynthesizedPaths (endpoints : List Endpoint) : List String :=
  (jsUniq (endpoints.map (fun e => e.resourcePath))).filter
    (fun rp => ¬ corsHasOptionsCheck endpoints rp)

/-- The existing-OPTIONS check as the surrounding comment of the source
describes it ("We check that there is not an OPTION endpoint already"):
some endpoint of the API has method OPTIONS on this resource path. -/
def corsHasOptionsIntended (endpoints : List Endpoint) (resourcePath : String) : Bool :=
  endpoints.any (fun e => e.method = "OPTIONS" && e.resourcePath = resourcePath)

/-!
Concrete example filesystems used to settle the claims on explicit inputs.
-/

/-- Filesystem with an array-valued key set at two levels of the path
`a/b`: the fragment at `a` holds `{"list": [1, 2]}` and the fragment at
`a/b` holds `{"list": [9]}`. -/
def fsArrayExample : SpecFS := fun dir =>
  if dir = ["a"] then
    SpecLoad.found (Json.obj [("list", Json.arr [Json.num 1, Json.num 2])])
  else if dir = ["a", "b"] then
    SpecLoad.found (Json.obj [("list", Json.arr [Json.num 9])])
  else
    SpecLoad.absent

/-- Filesystem for the merge-precedence scenario on the path `a/b`: the
fragment at `a` holds `{"shared": 1, "only-a": 3}` and the fragment at
`a/b` holds `{"shared": 2, "only-b": 4}`. -/
def fsPrecedenceExample : SpecFS := fun dir =>
  if dir = ["a"] then
    SpecLoad.found (Json.obj [("shared", Json.num 1), ("only-a", Json.num 3)])
  else if dir = ["a", "b"] then
    SpecLoad.found (Json.obj [("shared", Json.num 2), ("only-b", Json.num 4)])
  else
    SpecLoad.absent

/-- Filesystem without any spec file: every directory level answers
MODULE_NOT_FOUND. -/
def fsAllAbsent : SpecFS := fun _ => SpecLoad.absent

/-- Error thrown by `require` on a malformed spec file: a SyntaxError,
which carries no `code` property (so its code is not MODULE_NOT_FOUND and
not ENOENT). -/
def malformedSpecError : JsError := JsError.mk "" "" none

/-- Filesystem whose spec file in the directory `a/GET` under the
endpoints root is malformed: loading it throws `malformedSpecError`. -/
def fsMalformedExample : SpecFS := fun dir =>
  if dir = ["endpoints", "a", "GET"] then
    SpecLoad.failure malformedSpecError
  else
    SpecLoad.absent

/-- Directory walk visiting the endpoints root, the sub-directory `a` and
the endpoint leaf `a/GET`, as sub-paths relative to the root (each starts
with the path separator, hence the leading empty segment). -/
def walkMalformedExample : Except JsError (List (List String)) :=
  Except.ok [[""], ["", "a"], ["", "a", "GET"]]

/-- Example plugin that implements no hook at all. -/
def pluginSilent : Plugin String :=
  Plugin.mk "silent" (fun _ => none)

/-- Example plugin implementing the hook `deploy` by replacing the second
of three arguments. -/
def pluginReplaceSecond : Plugin String :=
  Plugin.mk "replace-second" (fun ev =>
    if ev = "deploy" then
      some (fun as => [as.getD 0 "", "replaced", as.getD 2 ""])
    else
      none)

/-!
Helper lemmas about the merge model.
-/

theorem lookupField_storeField_self (k : String) (v : Json) (d : List (String × Json)) :
    lookupField k (storeField k v d) = some v := by
  induction d with
  | nil => simp [storeField, lookupField]
  | cons hd tl ih =>
    obtain ⟨k', v'⟩ := hd
    by_cases h : k' = k
    · subst h
      simp [storeField, lookupField]
    · simp [storeField, lookupField, h, ih]

theorem lookupField_storeField_ne (k₀ k : String) (v : Json) (d : List (String × Json))
    (hne : k₀ ≠ k) :
    lookupField k₀ (storeField k v d) = lookupField k₀ d := by
  induction d with
  | nil => simp [storeField, lookupField, Ne.symm hne]
  | cons hd tl ih =>
    obtain ⟨k', v'⟩ := hd
    by_cases h : k' = k
    · subst h
      simp [storeField, lookupField, Ne.symm hne]
    · by_cases h0 : k' = k₀ <;> simp [storeField, lookupField, h, h0, ih, hne]

theorem lookupField_eq_none_of_not_mem (k : String) (d : List (String × Json))
    (h : k ∉ d.map Prod.fst) :
    lookupField k d = none := by
  induction d with
  | nil => simp [lookupField]
  | cons hd tl ih =>
    obtain ⟨k', v'⟩ := hd
    simp only [List.map_cons, List.mem_cons, not_or] at h
    simp [lookupField, Ne.symm h.1, ih h.2]

/-- Key-wise characterization of `mergeFields`, assuming the source
fragment has unique keys (JavaScript objects cannot repeat a key): a key
present in both objects maps to the recursive merge of the two values, a
key present in only one of them maps to its value there unchanged, and a
key present in neither is absent from the result. -/
theorem lookupField_mergeFields (d s : List (String × Json)) (k : String)
    (hnodup : (s.map Prod.fst).Nodup) :
    lookupField k (mergeFields d s) =
      match lookupField k s with
      | some sv =>
        some (match lookupField k d with
          | some dv => mergeJson dv sv
          | none => sv)
      | none => lookupField k d := by
  induction s generalizing d with
  | nil => simp [mergeFields, lookupField]
  | cons hd tl ih =>
    obtain ⟨k₀, v₀⟩ := hd
    simp only [List.map_cons, List.nodup_cons] at hnodup
    rw [mergeFields]
    rw [ih _ hnodup.2]
    by_cases hk : k₀ = k
    · subst hk
      have htl : lookupField k₀ tl = none :=
        lookupField_eq_none_of_not_mem _ _ hnodup.1
      rw [htl]
      rw [lookupField_storeField_self]
      simp [lookupField]
    · rw [lookupField_storeField_ne _ _ _ _ (fun h => hk h.symm)]
      simp [lookupField, hk]

/-- Scalar source values always replace the destination value in a lodash
merge (the object/object and array/array branches do not apply). -/
theorem mergeJson_scalar_replaces (dv : Json) :
    (∀ n : Int, mergeJson dv (Json.num n) = Json.num n)
    ∧ (∀ st : String, mergeJson dv (Json.str st) = Json.str st)
    ∧ (∀ b : Bool, mergeJson dv (Json.bool b) = Json.bool b)
    ∧ mergeJson dv Json.null = Json.null := by
  cases dv <;> exact ⟨fun _ => rfl, fun _ => rfl, fun _ => rfl, rfl⟩

/-- Element-wise characterization of the array merge: at every index where
both arrays have an element, the result holds the recursive merge of the
two; where only one side has an element, that element is kept unchanged. -/
theorem mergeArrays_getElem (ds ss : List Json) (i : Nat) :
    (mergeArrays ds ss)[i]? =
      match ds[i]?, ss[i]? with
      | some d, some s => some (mergeJson d s)
      | some d, none => some d
      | none, some s => some s
      | none, none => none := by
  induction ds generalizing ss i with
  | nil =>
    cases ss with
    | nil => simp [mergeArrays]
    | cons s ss' =>
      have he : mergeArrays [] (s :: ss') = s :: ss' := rfl
      rw [he]
      cases i with
      | zero => simp
      | succ j => cases h : ss'[j]? <;> simp [h]
  | cons d ds' ih =>
    cases ss with
    | nil =>
      have he : mergeArrays (d :: ds') [] = d :: ds' := rfl
      rw [he]
      cases hi : (d :: ds')[i]? <;> simp [hi]
    | cons s ss' =>
      have he : mergeArrays (d :: ds') (s :: ss') = mergeJson d s :: mergeArrays ds' ss' := rfl
      rw [he]
      cases i with
      | zero => simp
      | succ j => simpa using ih ss' j

/-- Walk-and-fold characterization of the `mergeSpecsFiles` loop: when no
visited level throws a loading error, the loop returns the left fold of
the lodash merge over the fragments found along the path (an absent spec
file contributing the empty document). -/
theorem mergeSpecsFilesGo_eq_foldl (fs : SpecFS) (dir : List String) (ds : List String) (acc : Json)
    (h : ∀ d ∈ specDirsOnPath dir ds, (fs d).ok) :
    mergeSpecsFilesGo fs dir ds acc =
      Except.ok ((specDirsOnPath dir ds).foldl
        (fun a d => mergeJson a (fragmentOrEmpty (fs d))) acc) := by
  induction ds generalizing dir acc with
  | nil => simp [mergeSpecsFilesGo, specDirsOnPath]
  | cons subDir rest ih =>
    have h1 : (fs (joinSegment dir subDir)).ok := by
      apply h
      simp [specDirsOnPath]
    have hrest : ∀ d ∈ specDirsOnPath (joinSegment dir subDir) rest, (fs d).ok := by
      intro d hd
      apply h
      simp only [specDirsOnPath]
      exact List.mem_cons_of_mem _ hd
    cases hfs : fs (joinSegment dir subDir) with
    | found f =>
      simp only [mergeSpecsFilesGo, specDirsOnPath, hfs, List.foldl_cons, fragmentOrEmpty]
      exact ih _ _ hrest
    | absent =>
      simp only [mergeSpecsFilesGo, specDirsOnPath, hfs, List.foldl_cons, fragmentOrEmpty]
      exact ih _ _ hrest
    | failure e =>
      rw [hfs] at h1
      exact absurd h1 (by simp [SpecLoad.ok])

/-!
Claim C1 — specification aggregation by `mergeSpecsFiles`.

The claim states that array values set by the deeper fragment replace the
shallower fragment's array entirely. They do not: lodash `_.merge` merges
arrays index by index, so the counterexample below, where `a` sets
`list: [1, 2]` and `a/b` sets `list: [9]`, merges to `list: [9, 2]`
instead of the claimed `list: [9]`. The amended claim replaces the
array-replacement clause with index-wise recursive array merging and is
proved as `mergeSpecsFiles_deep_merge`.
-/

/-- C1 counterexample: with the fragment at `a` holding `{"list": [1, 2]}`
and the fragment at `a/b` holding `{"list": [9]}`, merging along `a/b`
yields `{"list": [9, 2]}`, not the claimed `{"list": [9]}` (arrays are
merged index by index, not replaced by the deeper fragment). -/
theorem mergeSpecsFiles_array_replacement_counterexample :
    mergeSpecsFiles fsArrayExample [] ["a", "b"]
      = Except.ok (Json.obj [("list", Json.arr [Json.num 9, Json.num 2])])
    ∧ Json.arr [Json.num 9, Json.num 2] ≠ Json.arr [Json.num 9] :=
  ⟨rfl, by simp⟩

/-- C1 (amended): `mergeSpecsFiles` walks from the root toward the leaf
and deep-merges the `spec` fragment found at each directory level into the
accumulator, starting from the empty document (first conjunct); the deep
merge merges mapping values key by key recursively, with keys set at only
one level appearing unchanged in the result (second and third conjuncts);
scalar values set by the deeper fragment replace the shallower value
entirely (fourth conjunct); and sequence (array) values are merged index
by index recursively, the deeper fragment overriding at shared indices and
elements present on only one side being kept (fifth conjunct). -/
theorem mergeSpecsFiles_deep_merge :
    (∀ (fs : SpecFS) (beginPath subPath : List String),
      (∀ dir ∈ specDirsOnPath beginPath subPath, (fs dir).ok) →
      mergeSpecsFiles fs beginPath subPath =
        Except.ok ((specDirsOnPath beginPath subPath).foldl
          (fun acc dir => mergeJson acc (fragmentOrEmpty (fs dir))) (Json.obj [])))
    ∧ (∀ (d s : List (String × Json)),
        mergeJson (Json.obj d) (Json.obj s) = Json.obj (mergeFields d s))
    ∧ (∀ (d s : List (String × Json)) (k : String), (s.map Prod.fst).Nodup →
        lookupField k (mergeFields d s) =
          match lookupField k s with
          | some sv =>
            some (match lookupField k d with
              | some dv => mergeJson dv sv
              | none => sv)
          | none => lookupField k d)
    ∧ (∀ dv : Json,
        (∀ n : Int, mergeJson dv (Json.num n) = Json.num n)
        ∧ (∀ st : String, mergeJson dv (Json.str st) = Json.str st)
        ∧ (∀ b : Bool, mergeJson dv (Json.bool b) = Json.bool b)
        ∧ mergeJson dv Json.null = Json.null)
    ∧ (∀ (ds ss : List Json) (i : Nat),
        (mergeArrays ds ss)[i]? =
          match ds[i]?, ss[i]? with
          | some d, some s => some (mergeJson d s)
          | some d, none => some d
          | none, some s => some s
          | none, none => none) :=
  ⟨fun fs beginPath subPath h => mergeSpecsFilesGo_eq_foldl fs beginPath subPath _ h,
   fun _ _ => rfl,
   lookupField_mergeFields,
   mergeJson_scalar_replaces,
   mergeArrays_getElem⟩

/-- C1 witness: the merge-precedence scenario on the path `a/b`, where the
fragment at `a` holds `{"shared": 1, "only-a": 3}` and the fragment at
`a/b` holds `{"shared": 2, "only-b": 4}`: the walk folds the merge over
both fragments, the shared scalar key takes the deeper value 2 and the
disjoint keys of both levels appear unchanged. -/
theorem mergeSpecsFiles_deep_merge_witness :
    mergeSpecsFiles fsPrecedenceExample [] ["a", "b"] =
      Except.ok ((specDirsOnPath [] ["a", "b"]).foldl
        (fun acc dir => mergeJson acc (fragmentOrEmpty (fsPrecedenceExample dir))) (Json.obj []))
    ∧ lookupField "shared" (mergeFields
        [("shared", Json.num 1), ("only-a", Json.num 3)]
        [("shared", Json.num 2), ("only-b", Json.num 4)]) = some (Json.num 2)
    ∧ lookupField "only-a" (mergeFields
        [("shared", Json.num 1), ("only-a", Json.num 3)]
        [("shared", Json.num 2), ("only-b", Json.num 4)]) = some (Json.num 3)
    ∧ lookupField "only-b" (mergeFields
        [("shared", Json.num 1), ("only-a", Json.num 3)]
        [("shared", Json.num 2), ("only-b", Json.num 4)]) = some (Json.num 4) :=
  ⟨mergeSpecsFiles_deep_merge.1 fsPrecedenceExample [] ["a", "b"] (by
      intro dir hd
      simp only [specDirsOnPath, joinSegment, List.mem_cons, List.mem_singleton] at hd
      rcases hd with h | h | h
      · subst h; trivial
      · subst h; trivial
      · exact absurd h (by simp)),
   (mergeSpecsFiles_deep_merge.2.2.1 _ _ "shared" (by decide)).trans (by rfl),
   (mergeSpecsFiles_deep_merge.2.2.1 _ _ "only-a" (by decide)).trans (by rfl),
   (mergeSpecsFiles_deep_merge.2.2.1 _ _ "only-b" (by decide)).trans (by rfl)⟩

/-!
Claim C3 — missing fragment tolerance of `mergeSpecsFiles`.
-/

/-- C3: when no `spec` file exists at any directory level along the
sub-path, `mergeSpecsFiles` returns the empty document and no error: the
absence of a fragment at a level is silently skipped. -/
theorem mergeSpecsFiles_all_absent_empty (fs : SpecFS) (beginPath subPath : List String)
    (h : ∀ dir ∈ specDirsOnPath beginPath subPath, fs dir = SpecLoad.absent) :
    mergeSpecsFiles fs beginPath subPath = Except.ok (Json.obj []) := by
  induction subPath generalizing beginPath with
  | nil => rfl
  | cons subDir rest ih =>
    have h1 : fs (joinSegment beginPath subDir) = SpecLoad.absent := by
      apply h
      simp [specDirsOnPath]
    have hrest : ∀ d ∈ specDirsOnPath (joinSegment beginPath subDir) rest, fs d = SpecLoad.absent := by
      intro d hd
      apply h
      simp only [specDirsOnPath]
      exact List.mem_cons_of_mem _ hd
    show mergeSpecsFilesGo fs beginPath (subDir :: rest) (Json.obj []) = Except.ok (Json.obj [])
    simp only [mergeSpecsFilesGo, h1]
    exact ih _ hrest

/-- C3 witness: merging along the endpoint path `/users/GET` over a
filesystem holding no spec file at all yields the empty document without
error. -/
theorem mergeSpecsFiles_all_absent_empty_witness :
    mergeSpecsFiles fsAllAbsent ["endpoints"] ["", "users", "GET"] = Except.ok (Json.obj []) :=
  mergeSpecsFiles_all_absent_empty fsAllAbsent ["endpoints"] ["", "users", "GET"]
    (fun _ _ => rfl)

/-!
Claim C2 — hook firing on the plugin bus.
-/

/-- C2: firing an event when no registered plugin implements a hook of
that name resolves to the original argument list unchanged (first
conjunct); plugins are invoked in registration order, each receiving the
argument list as left by the plugins registered before it (second
conjunct); a plugin without the hook is skipped and the arguments pass
through unchanged (third conjunct); a plugin with the hook receives the
current arguments and its transformed argument list is threaded to the
remaining plugins, ending in the final result (fourth conjunct). -/
theorem fire_threads_arguments {α : Type} (eventName : String) :
    (∀ (plugins : List (Plugin α)) (args : List α),
      (∀ p ∈ plugins, p.hooks eventName = none) →
      fire plugins eventName args = args)
    ∧ (∀ (ps qs : List (Plugin α)) (args : List α),
      fire (ps ++ qs) eventName args = fire qs eventName (fire ps eventName args))
    ∧ (∀ (p : Plugin α) (ps : List (Plugin α)) (args : List α),
      p.hooks eventName = none →
      fire (p :: ps) eventName args = fire ps eventName args)
    ∧ (∀ (p : Plugin α) (ps : List (Plugin α)) (args : List α) (h : List α → List α),
      p.hooks eventName = some h →
      fire (p :: ps) eventName args = fire ps eventName (h args)) := by
  refine ⟨?_, ?_, ?_, ?_⟩
  · intro plugins
    induction plugins with
    | nil => intro args _; rfl
    | cons p ps ih =>
      intro args hnone
      have hp : p.hooks eventName = none := hnone p (List.mem_cons_self _ _)
      show callPluginsSequencialy eventName (p :: ps) args = args
      rw [callPluginsSequencialy, hp]
      exact ih args (fun q hq => hnone q (List.mem_cons_of_mem _ hq))
  · intro ps
    induction ps with
    | nil => intro qs args; rfl
    | cons p ps' ih =>
      intro qs args
      show callPluginsSequencialy eventName (p :: (ps' ++ qs)) args
        = fire qs eventName (callPluginsSequencialy eventName (p :: ps') args)
      rw [callPluginsSequencialy, callPluginsSequencialy]
      cases hp : p.hooks eventName with
      | some h => exact ih qs (h args)
      | none => exact ih qs args
  · intro p ps args hp
    show callPluginsSequencialy eventName (p :: ps) args = fire ps eventName args
    rw [callPluginsSequencialy, hp]
    rfl
  · intro p ps args h hp
    show callPluginsSequencialy eventName (p :: ps) args = fire ps eventName (h args)
    rw [callPluginsSequencialy, hp]
    rfl

/-- C2 witness: firing `deploy` with arguments `["a", "b", "c"]` through a
plugin without hooks leaves them unchanged; through the plugin replacing
the second argument followed by the silent plugin, the replacement is
threaded to the rest of the chain and to the final result. -/
theorem fire_threads_arguments_witness :
    fire [pluginSilent] "deploy" ["a", "b", "c"] = ["a", "b", "c"]
    ∧ fire [pluginSilent, pluginReplaceSecond] "deploy" ["a", "b", "c"]
      = fire [pluginReplaceSecond] "deploy" ["a", "b", "c"]
    ∧ fire [pluginReplaceSecond, pluginSilent] "deploy" ["a", "b", "c"]
      = fire [pluginSilent] "deploy" ["a", "replaced", "c"]
    ∧ fire [pluginReplaceSecond, pluginSilent] "deploy" ["a", "b", "c"] = ["a", "replaced", "c"] :=
  ⟨(fire_threads_arguments "deploy").1 [pluginSilent] ["a", "b", "c"]
      (by intro p hp; simp only [List.mem_singleton] at hp; subst hp; rfl),
   (fire_threads_arguments "deploy").2.2.1 pluginSilent [pluginReplaceSecond] ["a", "b", "c"] rfl,
   (fire_threads_arguments "deploy").2.2.2 pluginReplaceSecond [pluginSilent] ["a", "b", "c"] _ rfl,
   ((fire_threads_arguments "deploy").2.2.2 pluginReplaceSecond [pluginSilent]
      ["a", "b", "c"] _ rfl).trans
    ((fire_threads_arguments "deploy").1 [pluginSilent] ["a", "replaced", "c"]
      (by intro p hp; simp only [List.mem_singleton] at hp; subst hp; rfl))⟩

/-!
Claim C4 — propagation of non-MODULE_NOT_FOUND spec load failures.

`mergeSpecsFiles` does throw such an error, as the claim states. But the
catch handler of `loadEndpoints` evaluates `Promise.reject(e)` without
returning it for errors that are not the ENOENT of the missing endpoints
root, so the handler returns `undefined` and the returned promise RESOLVES
(with `undefined`) instead of rejecting: the failure is silently converted
into a success. The sibling `loadApis` has `return Promise.reject(e);`,
showing the missing `return` is a slip.
-/

/-- C4 (code bug): with a malformed spec file in the endpoint directory
`a/GET` (load error without MODULE_NOT_FOUND code), `mergeSpecsFiles`
throws the error and the load batch of `loadEndpoints` rejects with it,
but the catch handler of `loadEndpoints` then swallows it: the call
resolves with `undefined` instead of rejecting. -/
theorem loadEndpoints_swallows_malformed_spec_error :
    mergeSpecsFiles fsMalformedExample ["endpoints"] ["", "a", "GET"]
      = Except.error malformedSpecError
    ∧ malformedSpecError.code ≠ "MODULE_NOT_FOUND"
    ∧ loadEndpointsBody fsMalformedExample ["endpoints"] walkMalformedExample
      = Except.error malformedSpecError
    ∧ loadEndpoints fsMalformedExample ["endpoints"] walkMalformedExample
      = PromiseResult.resolved none :=
  ⟨rfl, by decide, rfl, rfl⟩

/-!
Claim C5 — missing specification root directories degrade to empty sets.
-/

/-- C5: when the `apis` root directory does not exist (its readdir throws
ENOENT on a path whose basename is `apis`), `loadApis` resolves to the
empty list; when the `endpoints` root directory does not exist (the
directory walk throws ENOENT on a path whose basename is `endpoints`),
`loadEndpoints` resolves to the empty list; neither call rejects. -/
theorem missing_spec_roots_resolve_empty :
    (∀ (e : JsError) (loadOne : String → Except JsError Api),
      e.code = "ENOENT" → basename e.path = "apis" →
      loadApis (Except.error e) loadOne = PromiseResult.resolved [])
    ∧ (∀ (e : JsError) (fs : SpecFS) (root : List String),
      e.code = "ENOENT" → basename e.path = "endpoints" →
      loadEndpoints fs root (Except.error e) = PromiseResult.resolved (some [])) := by
  constructor
  · intro e loadOne hcode hpath
    simp [loadApis, Except.bind, hcode, hpath]
  · intro e fs root hcode hpath
    simp [loadEndpoints, loadEndpointsBody, loadEndpointsCatch, Except.bind, hcode, hpath]

/-- C5 witness: a project without `apis` and `endpoints` directories loads
the empty API set and the empty endpoint set without error. -/
theorem missing_spec_roots_resolve_empty_witness :
    loadApis (Except.error (JsError.mk "ENOENT" "/project/apis" none))
      (fun _ => Except.ok (Api.mk Json.null)) = PromiseResult.resolved []
    ∧ loadEndpoints fsAllAbsent []
      (Except.error (JsError.mk "ENOENT" "/project/endpoints" none))
      = PromiseResult.resolved (some []) :=
  ⟨missing_spec_roots_resolve_empty.1 (JsError.mk "ENOENT" "/project/apis" none)
      (fun _ => Except.ok (Api.mk Json.null)) rfl rfl,
   missing_spec_roots_resolve_empty.2 (JsError.mk "ENOENT" "/project/endpoints" none)
      fsAllAbsent [] rfl rfl⟩

/-!
Claim C6 — endpoint leaves recognized by the directory walk.

The walk of `loadEndpoints` recognizes a directory as an endpoint leaf
when its terminal segment is in the literal list
`['GET', 'POST', 'PUT', 'PATCH', 'DELETE']`. The claim's enumerated set
also contains OPTIONS and ANY; directories with those terminal segments
are in fact skipped by the walk.
-/

theorem endpointLeaf_of_mem (parts : List String)
    (h : parts.getLastD "" ∈ recognizedMethods) :
    endpointLeaf parts
      = some (String.intercalate "/" parts.dropLast, parts.getLastD "") := by
  have hc : recognizedMethods.contains (parts.getLastD "") = true := by simpa using h
  simp [endpointLeaf, hc]
  simpa [List.getLastD_eq_getLast?] using h

theorem endpointLeaf_of_not_mem (parts : List String)
    (h : parts.getLastD "" ∉ recognizedMethods) :
    endpointLeaf parts = none := by
  have hc : recognizedMethods.contains (parts.getLastD "") = false := by simpa using h
  simp [endpointLeaf, hc]
  simpa [List.getLastD_eq_getLast?] using h

theorem endpointLeaf_method_mem (parts : List String) (pm : String × String)
    (h : endpointLeaf parts = some pm) : pm.2 ∈ recognizedMethods := by
  by_cases hc : parts.getLastD "" ∈ recognizedMethods
  · rw [endpointLeaf_of_mem parts hc] at h
    injection h with h'
    rw [← h']
    exact hc
  · rw [endpointLeaf_of_not_mem parts hc] at h
    exact absurd h (by simp)

theorem jsToUpper_of_mem_recognizedMethods (m : String) (h : m ∈ recognizedMethods) :
    jsToUpper m = m := by
  fin_cases h <;> rfl

/-- Loading every endpoint leaf of a path/method pair list succeeds into
endpoints carrying exactly those resource paths and methods, provided each
method is unchanged by uppercasing. -/
theorem exceptList_loadEndpoint_pairs (fs : SpecFS) (root : List String) :
    ∀ (l : List (String × String)) (endpoints : List Endpoint),
    (∀ pm ∈ l, jsToUpper pm.2 = pm.2) →
    exceptList (fun pm => loadEndpoint fs root pm.1 pm.2) l = Except.ok endpoints →
    endpoints.map (fun ep => (ep.resourcePath, ep.method)) = l := by
  intro l
  induction l with
  | nil =>
    intro endpoints _ h
    injection h with h'
    rw [← h']
    rfl
  | cons pm rest ih =>
    intro endpoints hupper h
    rw [exceptList] at h
    rw [show loadEndpoint fs root pm.1 pm.2
        = (mergeSpecsFiles fs root (jsSplit '/' pm.1 ++ [jsToUpper pm.2])).map
            (fun spec => Endpoint.mk spec pm.1 (jsToUpper pm.2)) from rfl] at h
    cases hm : mergeSpecsFiles fs root (jsSplit '/' pm.1 ++ [jsToUpper pm.2]) with
    | error e =>
      rw [hm] at h
      exact absurd h (by simp [Except.map, Except.bind])
    | ok spec =>
      rw [hm] at h
      cases hrest : exceptList (fun pm => loadEndpoint fs root pm.1 pm.2) rest with
      | error e =>
        rw [hrest] at h
        exact absurd h (by simp [Except.map, Except.bind])
      | ok eps =>
        rw [hrest] at h
        simp only [Except.map, Except.bind] at h
        injection h with h'
        rw [← h']
        simp only [List.map_cons]
        rw [ih eps (fun q hq => hupper q (List.mem_cons_of_mem _ hq))  hrest]
        rw [hupper pm (List.mem_cons_self _ _)]

/-- C6 counterexample: the directory walk skips a directory whose terminal
segment is OPTIONS and one whose terminal segment is ANY, although both
methods belong to the claim's enumerated set; no Endpoint is created for
them. -/
theorem loadEndpoints_options_any_counterexample :
    endpointLeaf ["", "foo", "OPTIONS"] = none
    ∧ endpointLeaf ["", "foo", "ANY"] = none
    ∧ "OPTIONS" ∈ ["GET", "POST", "PUT", "PATCH", "DELETE", "OPTIONS", "ANY"]
    ∧ "ANY" ∈ ["GET", "POST", "PUT", "PATCH", "DELETE", "OPTIONS", "ANY"]
    ∧ loadEndpointsBody fsAllAbsent ["endpoints"]
        (Except.ok [[""], ["", "foo"], ["", "foo", "OPTIONS"], ["", "foo", "ANY"]])
      = Except.ok [] :=
  ⟨rfl, rfl, by decide, by decide, rfl⟩

/-- C6 (amended): the directory walk of `loadEndpoints` creates one
Endpoint for exactly those walked directories whose terminal path segment
is a member of the set {GET, POST, PUT, PATCH, DELETE}: when the load
batch succeeds, the loaded endpoints' (resource path, method) pairs are
exactly the endpoint leaves of the walked directories in order (first
conjunct), and a walked directory is an endpoint leaf precisely when its
terminal segment is one of those five methods (second conjunct);
directories whose terminal segment is OPTIONS or ANY are skipped like any
other non-method directory. -/
theorem loadEndpoints_recognized_method_directories :
    (∀ parts : List String,
      (endpointLeaf parts).isSome ↔
        parts.getLastD "" = "GET" ∨ parts.getLastD "" = "POST"
        ∨ parts.getLastD "" = "PUT" ∨ parts.getLastD "" = "PATCH"
        ∨ parts.getLastD "" = "DELETE")
    ∧ (∀ (fs : SpecFS) (root : List String) (dirs : List (List String)) (endpoints : List Endpoint),
      loadEndpointsBody fs root (Except.ok dirs) = Except.ok endpoints →
      endpoints.map (fun ep => (ep.resourcePath, ep.method)) = dirs.filterMap endpointLeaf) := by
  constructor
  · intro parts
    by_cases hc : parts.getLastD "" ∈ recognizedMethods
    · rw [endpointLeaf_of_mem parts hc]
      simp only [Option.isSome_some, true_iff]
      simpa [recognizedMethods] using hc
    · rw [endpointLeaf_of_not_mem parts hc]
      simp only [Option.isSome_none, false_iff]
      simpa [recognizedMethods] using hc
  · intro fs root dirs endpoints h
    refine exceptList_loadEndpoint_pairs fs root (dirs.filterMap endpointLeaf) endpoints ?_ h
    intro pm hpm
    obtain ⟨parts, _, hleaf⟩ := List.mem_filterMap.mp hpm
    exact jsToUpper_of_mem_recognizedMethods pm.2 (endpointLeaf_method_mem parts pm hleaf)

/-- C6 witness: a walk over the directories `users`, `users/GET` and
`users/POST` (as root-relative sub-paths) loads exactly the two endpoints
`GET /users` and `POST /users`, whose (path, method) pairs are the
endpoint leaves of the walk. -/
theorem loadEndpoints_recognized_method_directories_witness :
    ((endpointLeaf ["", "users", "GET"]).isSome ↔
      (["", "users", "GET"] : List String).getLastD "" = "GET"
      ∨ (["", "users", "GET"] : List String).getLastD "" = "POST"
      ∨ (["", "users", "GET"] : List String).getLastD "" = "PUT"
      ∨ (["", "users", "GET"] : List String).getLastD "" = "PATCH"
      ∨ (["", "users", "GET"] : List String).getLastD "" = "DELETE")
    ∧ ([Endpoint.mk (Json.obj []) "/users" "GET",
        Endpoint.mk (Json.obj []) "/users" "POST"].map
          (fun ep => (ep.resourcePath, ep.method)))
      = ([[""], ["", "users"], ["", "users", "GET"], ["", "users", "POST"]].filterMap
          endpointLeaf) :=
  ⟨loadEndpoints_recognized_method_directories.1 ["", "users", "GET"],
   loadEndpoints_recognized_method_directories.2 fsAllAbsent ["endpoints"]
      [[""], ["", "users"], ["", "users", "GET"], ["", "users", "POST"]]
      [Endpoint.mk (Json.obj []) "/users" "GET", Endpoint.mk (Json.obj []) "/users" "POST"]
      rfl⟩

/-!
Claim C7 — create-vs-update branch of the Lambda deployment.
-/

/-- C7: the remote existence check resolves to false exactly when the
provider lookup fails with a ResourceNotFoundException (first and second
conjuncts), any other lookup error is propagated (third conjunct) and a
successful lookup resolves to true (fourth conjunct); when the target
exists the deploy performs the update call and records operation `Update`
in the report, and when it does not exist the deploy performs the creation
call, so re-deploying an already-existing target results in an update,
not a create and not an error (fifth and sixth conjuncts). -/
theorem lambda_deploy_create_or_update (c : AwsLambdaClient) :
    (isDeployed c = Except.ok false ↔
      ∃ e, c.getFunction = Except.error e ∧ e.code = "ResourceNotFoundException")
    ∧ (∀ e, c.getFunction = Except.error e → e.code = "ResourceNotFoundException" →
      isDeployed c = Except.ok false)
    ∧ (∀ e, c.getFunction = Except.error e → e.code ≠ "ResourceNotFoundException" →
      isDeployed c = Except.error e)
    ∧ (∀ u, c.getFunction = Except.ok u → isDeployed c = Except.ok true)
    ∧ (∀ u u', c.getFunction = Except.ok u → c.updateResult = Except.ok u' →
      lambdaDeploy c = Except.ok (DeployAction.update, "Update"))
    ∧ (∀ e u', c.getFunction = Except.error e → e.code = "ResourceNotFoundException" →
      c.createResult = Except.ok u' →
      lambdaDeploy c = Except.ok (DeployAction.creation, "Creation")) := by
  refine ⟨?_, ?_, ?_, ?_, ?_, ?_⟩
  · constructor
    · intro h
      cases hget : c.getFunction with
      | ok u => simp [isDeployed, hget] at h
      | error e =>
        refine ⟨e, rfl, ?_⟩
        by_contra hne
        simp [isDeployed, hget, hne] at h
    · rintro ⟨e, hget, hcode⟩
      simp [isDeployed, hget, hcode]
  · intro e hget hcode
    simp [isDeployed, hget, hcode]
  · intro e hget hcode
    simp [isDeployed, hget, hcode]
  · intro u hget
    simp [isDeployed, hget]
  · intro u u' hget hupd
    simp [lambdaDeploy, isDeployed, hget, Except.bind, hupd, Except.map]
  · intro e u' hget hcode hcre
    simp [lambdaDeploy, isDeployed, hget, hcode, Except.bind, hcre, Except.map]

/-- C7 witness: against a provider where the function exists and the
update call succeeds, deploy records an `Update`; against a provider
answering the lookup with ResourceNotFoundException, the existence check
resolves false and deploy performs the creation; a lookup failing with an
AccessDeniedException is propagated by the existence check. -/
theorem lambda_deploy_create_or_update_witness :
    lambdaDeploy (AwsLambdaClient.mk (Except.ok ()) (Except.ok ()) (Except.ok ()))
      = Except.ok (DeployAction.update, "Update")
    ∧ isDeployed (AwsLambdaClient.mk
        (Except.error (JsError.mk "ResourceNotFoundException" "" none))
        (Except.ok ()) (Except.ok ()))
      = Except.ok false
    ∧ lambdaDeploy (AwsLambdaClient.mk
        (Except.error (JsError.mk "ResourceNotFoundException" "" none))
        (Except.ok ()) (Except.ok ()))
      = Except.ok (DeployAction.creation, "Creation")
    ∧ isDeployed (AwsLambdaClient.mk
        (Except.error (JsError.mk "AccessDeniedException" "" (some "denied")))
        (Except.ok ()) (Except.ok ()))
      = Except.error (JsError.mk "AccessDeniedException" "" (some "denied")) :=
  ⟨(lambda_deploy_create_or_update _).2.2.2.2.1 () () rfl rfl,
   (lambda_deploy_create_or_update _).2.1 (JsError.mk "ResourceNotFoundException" "" none)
      rfl rfl,
   (lambda_deploy_create_or_update _).2.2.2.2.2 (JsError.mk "ResourceNotFoundException" "" none)
      () rfl rfl rfl,
   (lambda_deploy_create_or_update _).2.2.1 (JsError.mk "AccessDeniedException" "" (some "denied"))
      rfl (by decide)⟩

/-!
Claim C8 — publish gating in the deploy-apis batch.
-/

theorem foldl_success_flag (results : List ApiDeployResult) (init : Bool) :
    results.foldl (fun s r => if r.failed then false else s) init
      = (init && results.all (fun r => ¬ r.failed)) := by
  induction results generalizing init with
  | nil => simp
  | cons r rest ih =>
    rw [List.foldl_cons, ih, List.all_cons]
    cases hr : r.failed <;> simp [hr]

/-- C8: in a deploy-apis batch, when at least one API's deploy report is
marked failed, no API is published and the process exits with the failure
code 1; when every deploy succeeds, publish is invoked for every API of
the batch. -/
theorem deploy_apis_publish_gate (apiIds : List String) (results : List ApiDeployResult) :
    ((∃ r ∈ results, r.failed = true) →
      deployApisFinalStep apiIds results = BatchOutcome.exitProcess 1)
    ∧ ((∀ r ∈ results, r.failed = false) →
      deployApisFinalStep apiIds results = BatchOutcome.published apiIds) := by
  constructor
  · rintro ⟨r, hr, hfailed⟩
    rw [deployApisFinalStep, foldl_success_flag]
    rw [if_neg]
    simp only [Bool.true_and, List.all_eq_true]
    intro hall
    have := hall r hr
    rw [hfailed] at this
    exact absurd this (by simp)
  · intro hall
    rw [deployApisFinalStep, foldl_success_flag]
    rw [if_pos]
    simp only [Bool.true_and, List.all_eq_true]
    intro r hr
    rw [hall r hr]
    simp

/-- C8 witness: a batch of three APIs whose second deploy failed exits
with code 1 and publishes nothing; the same batch with all deploys
successful publishes all three APIs. -/
theorem deploy_apis_publish_gate_witness :
    deployApisFinalStep ["one", "two", "three"]
      [ApiDeployResult.mk "one" false, ApiDeployResult.mk "two" true,
       ApiDeployResult.mk "three" false]
      = BatchOutcome.exitProcess 1
    ∧ deployApisFinalStep ["one", "two", "three"]
      [ApiDeployResult.mk "one" false, ApiDeployResult.mk "two" false,
       ApiDeployResult.mk "three" false]
      = BatchOutcome.published ["one", "two", "three"] :=
  ⟨(deploy_apis_publish_gate _ _).1 ⟨ApiDeployResult.mk "two" true, by decide, rfl⟩,
   (deploy_apis_publish_gate _ _).2 (by decide)⟩

/-!
Claim C9 — translation of authorization failures by deploy-lambdas.
-/

/-- C9: an error with code AccessDeniedException carrying a cause message
is caught specifically: the command prints the human-readable
insufficient-permissions explanation instead of propagating the raw
provider error and exits the process with the failure code 1; every other
error (different code, no cause, or an empty and hence falsy cause
message) is rethrown unchanged. -/
theorem deploy_lambdas_access_denied_catch (e : JsError) :
    (e.code = "AccessDeniedException" → ∀ m, e.causeMessage = some m → m ≠ "" →
      deployLambdasCatch e = LambdaCliCatchOutcome.insufficientPermissionsExit 1)
    ∧ (e.code ≠ "AccessDeniedException" →
      deployLambdasCatch e = LambdaCliCatchOutcome.rethrown e)
    ∧ (e.causeMessage = none →
      deployLambdasCatch e = LambdaCliCatchOutcome.rethrown e)
    ∧ (e.causeMessage = some "" →
      deployLambdasCatch e = LambdaCliCatchOutcome.rethrown e) := by
  refine ⟨?_, ?_, ?_, ?_⟩
  · intro hcode m hm hne
    rw [deployLambdasCatch, if_pos ⟨hcode, by simp [hasCauseMessage, hm, hne]⟩]
  · intro hcode
    rw [deployLambdasCatch, if_neg (fun hp => hcode hp.1)]
  · intro hm
    rw [deployLambdasCatch, if_neg (fun hp => by
      have := hp.2
      rw [hasCauseMessage, hm] at this
      exact absurd this (by simp))]
  · intro hm
    rw [deployLambdasCatch, if_neg (fun hp => by
      have := hp.2
      rw [hasCauseMessage, hm] at this
      exact absurd this (by simp))]

/-- C9 witness: an AccessDeniedException whose cause message is non-empty
exits with the explanation; a ResourceNotFoundException, an
AccessDeniedException without cause, and one with an empty (falsy) cause
message are all rethrown unchanged. -/
theorem deploy_lambdas_access_denied_catch_witness :
    deployLambdasCatch (JsError.mk "AccessDeniedException" "" (some "not authorized"))
      = LambdaCliCatchOutcome.insufficientPermissionsExit 1
    ∧ deployLambdasCatch (JsError.mk "ResourceNotFoundException" "" (some "not authorized"))
      = LambdaCliCatchOutcome.rethrown
          (JsError.mk "ResourceNotFoundException" "" (some "not authorized"))
    ∧ deployLambdasCatch (JsError.mk "AccessDeniedException" "" none)
      = LambdaCliCatchOutcome.rethrown (JsError.mk "AccessDeniedException" "" none) :=
  ⟨(deploy_lambdas_access_denied_catch _).1 rfl "not authorized" rfl (by decide),
   (deploy_lambdas_access_denied_catch _).2.1 (by decide),
   (deploy_lambdas_access_denied_catch _).2.2.1 rfl⟩

/-!
Claim C10 — OPTIONS preflight synthesis by the CORS hook.

The hook's existing-OPTIONS check compares the uninvoked method member
`e.getMethod` with the string `'OPTIONS'`; strict equality between a
function and a string is always false, so the check never finds an
existing OPTIONS endpoint and the hook synthesizes a preflight endpoint
for every distinct resource path of the API — also for paths that already
carry an OPTIONS endpoint, contrary to the claim and to the source's own
comment ("We check that there is not an OPTION endpoint already").
-/

/-- C10 (code bug): for an API holding a GET endpoint and an OPTIONS
endpoint on the resource path `/a`, the hook's check fails to see the
existing OPTIONS endpoint (the uninvoked function member never equals the
string `'OPTIONS'`, while the comparison the comment describes does find
it), and the hook synthesizes an OPTIONS preflight endpoint for `/a`
anyway, attaching it with the duplicate-override flag. -/
theorem cors_hook_synthesizes_despite_existing_options :
    jsStrictEq (JsVal.funref "getMethod") (JsVal.strv "OPTIONS") = false
    ∧ corsHasOptionsCheck
        [Endpoint.mk (Json.obj []) "/a" "GET", Endpoint.mk (Json.obj []) "/a" "OPTIONS"] "/a"
      = false
    ∧ corsHasOptionsIntended
        [Endpoint.mk (Json.obj []) "/a" "GET", Endpoint.mk (Json.obj []) "/a" "OPTIONS"] "/a"
      = true
    ∧ corsSynthesizedPaths
        [Endpoint.mk (Json.obj []) "/a" "GET", Endpoint.mk (Json.obj []) "/a" "OPTIONS"]
      = ["/a"] :=
  ⟨rfl, rfl, rfl, rfl⟩

end Lager
